import Mathlib

/-!
Verification of the hover-editor positioning subsystem of voicetree-ui.

The numeric model uses exact rationals (ℚ) for screen and graph
coordinates; every definition is a direct transcription of the
corresponding TypeScript function.
-/

namespace VoiceTree

/-! ## CoordinateTransform (src/unnamed/part_010)

`screenToGraph` and `graphToScreen` are the two pure scalar conversion
functions between screen pixels and graph units. -/

/-- `screenToGraph(screenValue, zoom) = screenValue / zoom`. -/
def screenToGraph (screenValue zoom : ℚ) : ℚ :=
  screenValue / zoom

/-- `graphToScreen(graphValue, zoom) = graphValue * zoom`. -/
def graphToScreen (graphValue zoom : ℚ) : ℚ :=
  graphValue * zoom

/-! ## PositionState (interface `HoverEditorState` in part_010) -/

/-- Zoom-invariant record of the overlay's offset-from-node and size,
in graph units. -/
structure HoverEditorState where
  offsetX : ℚ
  offsetY : ℚ
  width : ℚ
  height : ℚ
deriving DecidableEq, Repr

/-- One consistent reading of the external inputs that
`pinHoverEditorToNode`, `updatePosition` and `pollForDrag` query:
current zoom, the canvas container's viewport origin
(`cy.container().getBoundingClientRect().left/top`) and the node's
rendered bounding-box corner (`node.renderedBoundingBox().x1/y1`). -/
structure Env where
  zoom : ℚ
  containerLeft : ℚ
  containerTop : ℚ
  bboxX1 : ℚ
  bboxY1 : ℚ
deriving DecidableEq, Repr

/-- The inline style rectangle that `updatePosition` writes to the
popover element (`style.left/top/width/height`, in pixels). -/
structure PopoverStyle where
  left : ℚ
  top : ℚ
  width : ℚ
  height : ℚ
deriving DecidableEq, Repr

/-- Initial-state setup of `pinHoverEditorToNode` (part_010, step 1):
the screen-space delta between the popover's and the node's viewport
top-left corners, divided by the initial zoom, plus the popover's
current size divided by the initial zoom. -/
def initialState (env : Env) (popoverLeft popoverTop popoverWidth popoverHeight : ℚ) :
    HoverEditorState :=
  let nodeViewportX := env.containerLeft + env.bboxX1
  let nodeViewportY := env.containerTop + env.bboxY1
  let initialScreenOffsetX := popoverLeft - nodeViewportX
  let initialScreenOffsetY := popoverTop - nodeViewportY
  { offsetX := screenToGraph initialScreenOffsetX env.zoom
    offsetY := screenToGraph initialScreenOffsetY env.zoom
    width := screenToGraph popoverWidth env.zoom
    height := screenToGraph popoverHeight env.zoom }

/-- `updatePosition` (part_010): recomputes the popover's screen
rectangle from the node's viewport position and the stored graph-unit
state and writes it to the popover's style. -/
def updatePosition (env : Env) (state : HoverEditorState) : PopoverStyle :=
  let nodeViewportX := env.containerLeft + env.bboxX1
  let nodeViewportY := env.containerTop + env.bboxY1
  let screenOffsetX := graphToScreen state.offsetX env.zoom
  let screenOffsetY := graphToScreen state.offsetY env.zoom
  { left := nodeViewportX + screenOffsetX
    top := nodeViewportY + screenOffsetY
    width := graphToScreen state.width env.zoom
    height := graphToScreen state.height env.zoom }

/-- The expected popover position that `pollForDrag` (part_010)
computes before comparing against the actual style values. -/
def pollExpected (env : Env) (state : HoverEditorState) : ℚ × ℚ :=
  let nodeViewportX := env.containerLeft + env.bboxX1
  let nodeViewportY := env.containerTop + env.bboxY1
  (nodeViewportX + graphToScreen state.offsetX env.zoom,
   nodeViewportY + graphToScreen state.offsetY env.zoom)

/-- `pollForDrag` (part_010): one tick of the divergence poller.
`actualX`/`actualY` are `parseFloat(popoverEl.style.left/top)`.
If the actual position diverges from the expected one by more than the
2px threshold in either axis, the whole pixel delta is converted to
graph units at the current zoom and added into the stored offset. -/
def pollForDrag (env : Env) (state : HoverEditorState) (actualX actualY : ℚ) :
    HoverEditorState :=
  let expected := pollExpected env state
  let dx := actualX - expected.1
  let dy := actualY - expected.2
  if 2 < |dx| ∨ 2 < |dy| then
    { state with
        offsetX := state.offsetX + screenToGraph dx env.zoom
        offsetY := state.offsetY + screenToGraph dy env.zoom }
  else
    state

/-- The `ResizeObserver` callback (part_010): unconditionally converts
the observed content-rect size to graph units at the current zoom and
stores it. -/
def resizeObserverStep (zoom contentWidth contentHeight : ℚ)
    (state : HoverEditorState) : HoverEditorState :=
  { state with
      width := screenToGraph contentWidth zoom
      height := screenToGraph contentHeight zoom }

/-! ## Claims C1–C4 -/

/-- C4: for every scalar `v` and zoom `z > 0`,
`screenToGraph (graphToScreen v z) z = v` — converting to screen space
and back is the identity (exact over ℚ). -/
theorem screenToGraph_graphToScreen (v z : ℚ) (hz : 0 < z) :
    screenToGraph (graphToScreen v z) z = v := by
  unfold screenToGraph graphToScreen
  field_simp

/-- Witness for C4 at `v = 7`, `z = 3`. -/
theorem screenToGraph_graphToScreen_witness :
    (0 : ℚ) < 3 ∧ screenToGraph (graphToScreen 7 3) 3 = 7 :=
  ⟨by norm_num, screenToGraph_graphToScreen 7 3 (by norm_num)⟩

/-- C1: no-jump invariant. For every initial zoom `z > 0`, the first
`updatePosition` write after `pin` reproduces the overlay's pre-pin
screen position exactly (hence within 1px): the initial offset is the
screen delta between overlay and node divided by the zoom, and the
write multiplies it back. -/
theorem pin_no_jump (env : Env) (pl pt pw ph : ℚ) (hz : 0 < env.zoom) :
    |(updatePosition env (initialState env pl pt pw ph)).left - pl| ≤ 1 ∧
    |(updatePosition env (initialState env pl pt pw ph)).top - pt| ≤ 1 := by
  have hz' : env.zoom ≠ 0 := ne_of_gt hz
  have hleft : (updatePosition env (initialState env pl pt pw ph)).left = pl := by
    simp only [updatePosition, initialState, screenToGraph, graphToScreen]
    field_simp
  have htop : (updatePosition env (initialState env pl pt pw ph)).top = pt := by
    simp only [updatePosition, initialState, screenToGraph, graphToScreen]
    field_simp
  rw [hleft, htop]
  norm_num

/-- Witness for C1 at zoom 2, container (10, 20), node bbox (100, 200),
overlay pre-pin position (430, 160). -/
theorem pin_no_jump_witness :
    (0 : ℚ) < (Env.mk 2 10 20 100 200).zoom ∧
    |(updatePosition (Env.mk 2 10 20 100 200)
        (initialState (Env.mk 2 10 20 100 200) 430 160 400 300)).left - 430| ≤ 1 ∧
    |(updatePosition (Env.mk 2 10 20 100 200)
        (initialState (Env.mk 2 10 20 100 200) 430 160 400 300)).top - 160| ≤ 1 :=
  ⟨by norm_num, pin_no_jump (Env.mk 2 10 20 100 200) 430 160 400 300 (by norm_num)⟩

/-- C3: the expected-position formula of the divergence poller and the
position written by the update path are extensionally equal functions
of the same input reading: for every environment and state,
`pollForDrag`'s expected position equals the `left`/`top` that
`updatePosition` writes. -/
theorem pollExpected_eq_updatePosition (env : Env) (state : HoverEditorState) :
    pollExpected env state =
      ((updatePosition env state).left, (updatePosition env state).top) := by
  simp [pollExpected, updatePosition]

/-- The concrete environment of the spec's drag round-trip test:
zoom 1.0, container origin (0, 0), node rendered corner (500, 400). -/
def dragTestEnv : Env := Env.mk 1 0 0 500 400

/-- The concrete pre-drag state of the spec's drag round-trip test:
offset (300, -50) at zoom 1.0. -/
def dragTestState : HoverEditorState := HoverEditorState.mk 300 (-50) 400 300

/-- C2: one tick of the divergence poller. The expected position is the
node's viewport position plus `graphToScreen(offset, zoom)`; if the
actual-minus-expected delta exceeds 2px in either axis the entire delta
is converted via `screenToGraph` at the current zoom and added into the
offset, otherwise the state is unchanged. In particular, at zoom 1.0
with offset (300, -50) and the overlay externally moved to (900, 400)
(a (+100, +50) screen delta), one tick yields offset (400, 0). -/
theorem pollForDrag_spec (env : Env) (state : HoverEditorState) (ax ay : ℚ) :
    (pollForDrag env state ax ay =
      (let ex := (env.containerLeft + env.bboxX1) + graphToScreen state.offsetX env.zoom
       let ey := (env.containerTop + env.bboxY1) + graphToScreen state.offsetY env.zoom
       let dx := ax - ex
       let dy := ay - ey
       if 2 < |dx| ∨ 2 < |dy| then
         { state with
             offsetX := state.offsetX + screenToGraph dx env.zoom
             offsetY := state.offsetY + screenToGraph dy env.zoom }
       else state)) ∧
    (pollForDrag dragTestEnv dragTestState 900 400).offsetX = 400 ∧
    (pollForDrag dragTestEnv dragTestState 900 400).offsetY = 0 := by
  refine ⟨rfl, ?_, ?_⟩ <;>
    simp [pollForDrag, pollExpected, dragTestEnv, dragTestState,
      graphToScreen, screenToGraph] <;> norm_num

/-! ## The `onGraphMovement` implementation
(src/src/terminal-hover-editor-positioning.ts)

This variant stores the user offset and zoom-invariant base size in
closure variables together with the per-tick bookkeeping flags
(`isGraphMoving`, `lastZoom`, `frameCount`), clamps applied sizes, and
runs drag/resize detection at the start of each movement burst. -/

/-- The mutable closure state of `pinHoverEditorToNode` in
terminal-hover-editor-positioning.ts: user offsets in graph units,
`isGraphMoving`, `lastZoom`, `frameCount`, and the zoom-invariant base
dimensions. -/
structure GMState where
  userOffsetX : ℚ
  userOffsetY : ℚ
  isGraphMoving : Bool
  lastZoom : ℚ
  frameCount : ℕ
  baseWidth : ℚ
  baseHeight : ℚ
deriving DecidableEq, Repr

/-- One consistent reading of the inputs `onGraphMovement` queries:
current zoom, the node's rendered bounding-box corner, the popover's
current style position (`parseFloat(style.left/top)`) and its current
layout size (`offsetWidth/offsetHeight`). -/
structure GMInput where
  zoom : ℚ
  bboxX1 : ℚ
  bboxY1 : ℚ
  styleLeft : ℚ
  styleTop : ℚ
  offsetWidth : ℚ
  offsetHeight : ℚ
deriving DecidableEq, Repr

/-- The clamped width that `updatePosition` applies:
`Math.max(50, Math.min(800, baseWidthZoomInvariant * currentZoom))`. -/
def scaledWidth (baseWidth zoom : ℚ) : ℚ :=
  max 50 (min 800 (baseWidth * zoom))

/-- The clamped height that `updatePosition` applies:
`Math.max(38, Math.min(1200, baseHeightZoomInvariant * currentZoom))`. -/
def scaledHeight (baseHeight zoom : ℚ) : ℚ :=
  max 38 (min 1200 (baseHeight * zoom))

/-- The expected width used by `onGraphMovement`'s resize detection
("same logic as updatePosition"):
`Math.max(50, Math.min(800, baseWidthZoomInvariant * currentZoom))`. -/
def gmExpectedWidth (baseWidth zoom : ℚ) : ℚ :=
  max 50 (min 800 (baseWidth * zoom))

/-- The expected height used by `onGraphMovement`'s resize detection:
`Math.max(38, Math.min(1200, baseHeightZoomInvariant * currentZoom))`. -/
def gmExpectedHeight (baseHeight zoom : ℚ) : ℚ :=
  max 38 (min 1200 (baseHeight * zoom))

/-- `updatePosition` of terminal-hover-editor-positioning.ts: position
from `getDefaultPosition` (rendered corner plus user offset scaled by
zoom; the base offset is 0), size from the clamped zoom-scaled base
dimensions. -/
def updatePositionGM (zoom bboxX1 bboxY1 : ℚ) (s : GMState) : PopoverStyle :=
  { left := bboxX1 + (0 * zoom) + s.userOffsetX * zoom
    top := bboxY1 + (0 * zoom) + s.userOffsetY * zoom
    width := scaledWidth s.baseWidth zoom
    height := scaledHeight s.baseHeight zoom }

/-- `onGraphMovement` of terminal-hover-editor-positioning.ts: one
invocation of the debounced graph-movement handler, returning the new
closure state and the style rectangle written at the end. The first
four invocations only reposition (`frameCount < 5` early return);
afterwards, when a movement burst starts (`!isGraphMoving`),
divergence above the 2px / 5px thresholds is folded into the offset /
base size unless the zoom changed during this tick (`zoomChanged`). -/
def onGraphMovement (inp : GMInput) (s : GMState) : GMState × PopoverStyle :=
  let fc := s.frameCount + 1
  if fc < 5 then
    let s1 := { s with frameCount := fc }
    (s1, updatePositionGM inp.zoom inp.bboxX1 inp.bboxY1 s1)
  else
    let currentZoom := inp.zoom
    let zoomChanged := 1 / 1000 < |currentZoom - s.lastZoom|
    let s1 :=
      if s.isGraphMoving then s
      else
        let expectedX := inp.bboxX1 + s.userOffsetX * currentZoom
        let expectedY := inp.bboxY1 + s.userOffsetY * currentZoom
        let diffX := |inp.styleLeft - expectedX|
        let diffY := |inp.styleTop - expectedY|
        let s1 :=
          if (2 < diffX ∨ 2 < diffY) ∧ ¬zoomChanged then
            { s with
                userOffsetX := (inp.styleLeft - inp.bboxX1) / currentZoom
                userOffsetY := (inp.styleTop - inp.bboxY1) / currentZoom }
          else s
        let widthDiff := |inp.offsetWidth - gmExpectedWidth s.baseWidth currentZoom|
        let heightDiff := |inp.offsetHeight - gmExpectedHeight s.baseHeight currentZoom|
        if (5 < widthDiff ∨ 5 < heightDiff) ∧ ¬zoomChanged then
          { s1 with
              baseWidth := inp.offsetWidth / currentZoom
              baseHeight := inp.offsetHeight / currentZoom }
        else s1
    let s2 := { s1 with lastZoom := currentZoom, frameCount := fc, isGraphMoving := true }
    (s2, updatePositionGM inp.zoom inp.bboxX1 inp.bboxY1 s2)

/-- The `movementTimeout` callback: after 110ms without movement events
the graph is declared stationary (`isGraphMoving = false`). -/
def movementSettle (s : GMState) : GMState :=
  { s with isGraphMoving := false }

/-! ## Claims C8, C9, C10 -/

/-- A state in which a zoom change from 1 to 2 is about to be observed:
past the startup window (`frameCount = 10`), movement settled,
`lastZoom = 1`. -/
def zoomTickState : GMState := GMState.mk 0 0 false 1 10 400 300

/-- The tick during which the zoom changes from 1 to 2 (the popover has
not moved, so the only divergence is zoom-induced). -/
def zoomChangeInput : GMInput := GMInput.mk 2 0 0 0 0 800 600

/-- The first tick after the zoom change has completed: zoom stable at
2, and the popover's style shows a 100px divergence from the expected
position. -/
def postZoomInput : GMInput := GMInput.mk 2 0 0 100 0 1600 1200

/-- C8 counterexample: there is no suppression window covering "the
first few ticks after a zoom change completes". Run a tick in which
the zoom changes from 1 to 2, let the movement settle (the zoom change
completes), then run the very next divergence-check tick with a 100px
divergence: the divergence IS attributed to user action (the offset
changes from 0 to 50), even though this is the first tick after the
zoom change completed. -/
theorem no_post_zoom_suppression_window :
    (onGraphMovement postZoomInput
        (movementSettle (onGraphMovement zoomChangeInput zoomTickState).1)).1.userOffsetX =
      50 ∧
    (movementSettle (onGraphMovement zoomChangeInput zoomTickState).1).userOffsetX = 0 := by
  constructor <;>
    norm_num [onGraphMovement, movementSettle, zoomTickState, zoomChangeInput,
      postZoomInput, gmExpectedWidth, gmExpectedHeight, abs]

/-- C8 amended: divergence checks are suppressed exactly on the ticks
during which the zoom itself changed (per-tick `zoomChanged` flag,
|Δzoom| > 0.001 relative to the previous tick) — as well as during the
first four ticks after pin and while a movement burst is in progress —
not for a window of ticks after a zoom change completes. Whenever the
zoom changed since the previous tick, no divergence is attributed to
user action: offset and base size are left unchanged. -/
theorem zoomChanged_tick_suppresses (inp : GMInput) (s : GMState)
    (hz : 1 / 1000 < |inp.zoom - s.lastZoom|) :
    (onGraphMovement inp s).1.userOffsetX = s.userOffsetX ∧
    (onGraphMovement inp s).1.userOffsetY = s.userOffsetY ∧
    (onGraphMovement inp s).1.baseWidth = s.baseWidth ∧
    (onGraphMovement inp s).1.baseHeight = s.baseHeight := by
  unfold onGraphMovement
  have hz' : ¬(|inp.zoom - s.lastZoom| ≤ 1000⁻¹) := by
    rw [← one_div]
    exact not_le.mpr hz
  by_cases h5 : s.frameCount + 1 < 5
  · simp [h5]
  · by_cases hm : s.isGraphMoving
    · simp [h5, hm]
    · simp [h5, hm, hz']

/-- Witness for C8's amended theorem: the zoom-change tick of the
counterexample trace leaves offset and base size untouched. -/
theorem zoomChanged_tick_suppresses_witness :
    (1 / 1000 : ℚ) < |zoomChangeInput.zoom - zoomTickState.lastZoom| ∧
    (onGraphMovement zoomChangeInput zoomTickState).1.userOffsetX =
      zoomTickState.userOffsetX ∧
    (onGraphMovement zoomChangeInput zoomTickState).1.userOffsetY =
      zoomTickState.userOffsetY ∧
    (onGraphMovement zoomChangeInput zoomTickState).1.baseWidth =
      zoomTickState.baseWidth ∧
    (onGraphMovement zoomChangeInput zoomTickState).1.baseHeight =
      zoomTickState.baseHeight :=
  ⟨by norm_num [zoomChangeInput, zoomTickState],
   zoomChanged_tick_suppresses zoomChangeInput zoomTickState
     (by norm_num [zoomChangeInput, zoomTickState])⟩

/-- C9 counterexample: a zero size reading is recorded as the stored
size. When the `ResizeObserver` fires with a 0×0 content rect at
zoom 1, the stored width and height become 0 — the frame's size write
is not skipped and the zero is kept. -/
theorem zero_size_read_is_recorded :
    (resizeObserverStep 1 0 0 (HoverEditorState.mk 3 4 100 80)).width = 0 ∧
    (resizeObserverStep 1 0 0 (HoverEditorState.mk 3 4 100 80)).height = 0 := by
  constructor <;> norm_num [resizeObserverStep, screenToGraph]

/-- C9 amended: the size-change listener records every reading
unconditionally — including a zero reading, which becomes a stored
size of zero — and the update path's size write is likewise
unconditional, derived from the stored state alone; there is no
skip-and-retry for zero-size reads. -/
theorem resizeObserver_unconditional (zoom cw ch : ℚ) (state : HoverEditorState) :
    (resizeObserverStep zoom cw ch state).width = screenToGraph cw zoom ∧
    (resizeObserverStep zoom cw ch state).height = screenToGraph ch zoom ∧
    (resizeObserverStep zoom 0 0 state).width = 0 ∧
    (resizeObserverStep zoom 0 0 state).height = 0 ∧
    (updatePosition (Env.mk zoom 0 0 0 0) state).width =
      graphToScreen state.width zoom := by
  refine ⟨rfl, rfl, ?_, ?_, rfl⟩ <;>
    simp [resizeObserverStep, screenToGraph]

/-- C10: every size write of the update path is clamped independently
of the stored base size: the written width always lies in [50, 800]
and the written height in [38, 1200], for every base size and zoom,
and the expected-size formula used by the resize detection applies the
same clamps (it is the same function). -/
theorem size_write_clamped (zoom bboxX1 bboxY1 : ℚ) (s : GMState) :
    50 ≤ (updatePositionGM zoom bboxX1 bboxY1 s).width ∧
    (updatePositionGM zoom bboxX1 bboxY1 s).width ≤ 800 ∧
    38 ≤ (updatePositionGM zoom bboxX1 bboxY1 s).height ∧
    (updatePositionGM zoom bboxX1 bboxY1 s).height ≤ 1200 ∧
    gmExpectedWidth s.baseWidth zoom = (updatePositionGM zoom bboxX1 bboxY1 s).width ∧
    gmExpectedHeight s.baseHeight zoom = (updatePositionGM zoom bboxX1 bboxY1 s).height := by
  refine ⟨le_max_left _ _, ?_, le_max_left _ _, ?_, rfl, rfl⟩
  · exact max_le (by norm_num) (min_le_left _ _)
  · exact max_le (by norm_num) (min_le_left _ _)

/-! ## LifecycleTracker (part_010 `trackingMap` / `cleanup`)

The registry is a JS `Map` from terminal id to the entry's cleanup
closure. We model the map as an association list with JS `Map`
semantics (`set` replaces in place, `delete` removes the binding,
`get` finds the binding), and the closure's captured subscriptions as
a pool of active resources keyed by a per-registration token. -/

/-- The five resources a tracking entry holds, released by its cleanup
closure: `cy.off('viewport', …)`, `node.off('position', …)`,
`resizeObserver.disconnect()`, `mutationObserver.disconnect()` and
`clearInterval(dragPollInterval)`. -/
inductive Resource where
  | cameraListener
  | nodeListener
  | sizeListener
  | removalWatcher
  | pollTimer
deriving DecidableEq, Repr

/-- One registration: a unique token (standing for the closure
identity) and the popover element it tracks. -/
structure Entry where
  token : ℕ
  popover : ℕ
deriving DecidableEq, Repr

/-- State of a `TerminalHoverEditorPositioning` object together with
the ambient event sources: the tracking map, the pool of still-active
subscriptions/timers, a fresh-token counter, and the set of popover
elements currently in `document.body`. -/
structure SystemState where
  trackingMap : List (String × Entry)
  active : List (ℕ × Resource)
  nextToken : ℕ
  dom : List ℕ
deriving DecidableEq, Repr

/-- JS `Map.has`. -/
def mapHas (m : List (String × Entry)) (k : String) : Bool :=
  m.any (fun p => p.1 == k)

/-- JS `Map.get` (as an `Option`). -/
def mapGet (m : List (String × Entry)) (k : String) : Option Entry :=
  (m.find? (fun p => p.1 == k)).map Prod.snd

/-- JS `Map.delete`. -/
def mapDelete (m : List (String × Entry)) (k : String) : List (String × Entry) :=
  m.filter (fun p => p.1 != k)

/-- JS `Map.set`: replaces the existing binding in place, else appends. -/
def mapSet (m : List (String × Entry)) (k : String) (v : Entry) :
    List (String × Entry) :=
  if mapHas m k then m.map (fun p => if p.1 == k then (k, v) else p)
  else m ++ [(k, v)]

/-- The body of an entry's `cleanup` closure (part_010): release all
five of the entry's resources and delete the id from the tracking map. -/
def runTeardown (s : SystemState) (id : String) (e : Entry) : SystemState :=
  { s with
      active := s.active.filter (fun q => q.1 != e.token)
      trackingMap := mapDelete s.trackingMap id }

/-- The public `cleanup(terminalId)` method (part_010): look up the
stored cleanup closure and run it; no-op when the id is untracked. -/
def cleanupOp (s : SystemState) (id : String) : SystemState :=
  match mapGet s.trackingMap id with
  | some e => runTeardown s id e
  | none => s

/-- The five resources registered by `pinHoverEditorToNode` for one
entry (`resizeObserver.observe`, `mutationObserver.observe`,
`cy.on('viewport')`, `node.on('position')`, `setInterval`). -/
def newResources (t : ℕ) : List (ℕ × Resource) :=
  [(t, Resource.sizeListener), (t, Resource.removalWatcher),
   (t, Resource.cameraListener), (t, Resource.nodeListener),
   (t, Resource.pollTimer)]

/-- The registration tail of `pinHoverEditorToNode`: store the new
entry in the map and subscribe its listeners and poll timer. -/
def addEntry (s : SystemState) (id : String) (popover : ℕ) : SystemState :=
  { s with
      trackingMap := mapSet s.trackingMap id (Entry.mk s.nextToken popover)
      active := s.active ++ newResources s.nextToken
      nextToken := s.nextToken + 1 }

/-- `pinHoverEditorToNode` (part_010, lines 39–42 and the registration
tail): if the id is already tracked, run the previous entry's cleanup
first, then create the new entry. -/
def pinOp (s : SystemState) (id : String) (popover : ℕ) : SystemState :=
  let s1 := if mapHas s.trackingMap id then cleanupOp s id else s
  addEntry s1 id popover

/-- `cleanupAll` (part_010): run every stored cleanup closure. -/
def cleanupAllOp (s : SystemState) : SystemState :=
  (s.trackingMap.map Prod.fst).foldl cleanupOp s

/-- One cycle of an entry's `MutationObserver` (part_010, lines
142–146): if the popover is no longer contained in `document.body`,
run the entry's cleanup closure. -/
def removalCycleOp (s : SystemState) (id : String) : SystemState :=
  match mapGet s.trackingMap id with
  | some e => if e.popover ∈ s.dom then s else runTeardown s id e
  | none => s

/-- External removal of a popover element from `document.body`. -/
def domRemoveOp (s : SystemState) (p : ℕ) : SystemState :=
  { s with dom := s.dom.filter (fun q => q != p) }

/-- External insertion of a popover element into `document.body`. -/
def domAddOp (s : SystemState) (p : ℕ) : SystemState :=
  { s with dom := s.dom ++ [p] }

/-- `hasTracking(terminalId)` of terminal-hover-editor-positioning.ts
(`isTracked` in the spec): whether the tracking map has the id. -/
def hasTracking (s : SystemState) (id : String) : Bool :=
  mapHas s.trackingMap id

/-- A freshly constructed positioner: empty tracking map, no
subscriptions, with an arbitrary initial DOM. -/
def initSystem (dom : List ℕ) : SystemState :=
  SystemState.mk [] [] 0 dom

/-- The states reachable from a fresh positioner through the public
operations and the ambient DOM events. -/
inductive Reachable : SystemState → Prop where
  | init (dom : List ℕ) : Reachable (initSystem dom)
  | pin (s : SystemState) (id : String) (popover : ℕ) :
      Reachable s → Reachable (pinOp s id popover)
  | unpin (s : SystemState) (id : String) :
      Reachable s → Reachable (cleanupOp s id)
  | unpinAll (s : SystemState) :
      Reachable s → Reachable (cleanupAllOp s)
  | removal (s : SystemState) (id : String) :
      Reachable s → Reachable (removalCycleOp s id)
  | domRemove (s : SystemState) (p : ℕ) :
      Reachable s → Reachable (domRemoveOp s p)
  | domAdd (s : SystemState) (p : ℕ) :
      Reachable s → Reachable (domAddOp s p)

/-- Number of bindings a key has in the tracking map. -/
def keyCount (m : List (String × Entry)) (k : String) : ℕ :=
  (m.filter (fun p => p.1 == k)).length

/-- Registry invariant: distinct keys, and every token in the map or
the resource pool is below the fresh-token counter. -/
def SysInv (s : SystemState) : Prop :=
  (s.trackingMap.map Prod.fst).Nodup ∧
  (∀ p ∈ s.trackingMap, p.2.token < s.nextToken) ∧
  ∀ q ∈ s.active, q.1 < s.nextToken

/-! ### Registry lemmas -/

theorem mapHas_of_mapGet_some {m : List (String × Entry)} {k : String} {e : Entry}
    (h : mapGet m k = some e) : mapHas m k = true := by
  unfold mapGet at h
  unfold mapHas
  obtain ⟨pr, hpr, -⟩ := Option.map_eq_some'.mp h
  have hp := List.find?_some hpr
  exact List.any_eq_true.mpr ⟨pr, List.mem_of_find?_eq_some hpr, hp⟩

theorem mapGet_mem {m : List (String × Entry)} {k : String} {e : Entry}
    (h : mapGet m k = some e) : ∃ pr ∈ m, pr.1 = k ∧ pr.2 = e := by
  unfold mapGet at h
  obtain ⟨pr, hpr, he⟩ := Option.map_eq_some'.mp h
  exact ⟨pr, List.mem_of_find?_eq_some hpr, by simpa using List.find?_some hpr, he⟩

theorem mapHas_mapDelete (m : List (String × Entry)) (k : String) :
    mapHas (mapDelete m k) k = false := by
  unfold mapHas mapDelete
  rw [Bool.eq_false_iff]
  intro h
  obtain ⟨p, hp, hpk⟩ := List.any_eq_true.mp h
  have := (List.mem_filter.mp hp).2
  simp only [bne_iff_ne, ne_eq, decide_eq_true_eq] at this
  exact this (by simpa using hpk)

theorem mapGet_eq_none_of_has_false {m : List (String × Entry)} {k : String}
    (h : mapHas m k = false) : mapGet m k = none := by
  unfold mapHas at h
  unfold mapGet
  have hf : List.find? (fun p => p.1 == k) m = none := by
    rw [List.find?_eq_none]
    intro p hp hpk
    have ha : (m.any fun p => p.1 == k) = true := List.any_eq_true.mpr ⟨p, hp, hpk⟩
    rw [ha] at h
    cases h
  rw [hf]
  rfl

theorem mapGet_mapDelete_append (m : List (String × Entry)) (k : String) (v : Entry) :
    mapGet (mapDelete m k ++ [(k, v)]) k = some v := by
  induction m with
  | nil => simp [mapGet, mapDelete]
  | cons p m ih =>
    unfold mapDelete at ih ⊢
    rw [List.filter_cons]
    by_cases hp : p.1 = k
    · have hb : (p.1 != k) = false := by simp [hp]
      rw [hb]
      simpa using ih
    · have hb : (p.1 != k) = true := by simp [hp]
      rw [hb]
      simp only [if_true, List.cons_append]
      unfold mapGet at ih ⊢
      rw [List.find?_cons_of_neg _ (by simp [hp])]
      exact ih

theorem keyCount_le_one_of_nodup {m : List (String × Entry)} {k : String}
    (h : (m.map Prod.fst).Nodup) : keyCount m k ≤ 1 := by
  induction m with
  | nil => simp [keyCount]
  | cons p m ih =>
    rw [List.map_cons, List.nodup_cons] at h
    unfold keyCount at ih ⊢
    rw [List.filter_cons]
    by_cases hp : p.1 = k
    · have hnil : m.filter (fun q => q.1 == k) = [] := by
        rw [List.filter_eq_nil_iff]
        intro q hq hqk
        exact h.1 (hp ▸ (by simpa using hqk) ▸ List.mem_map_of_mem Prod.fst hq)
      simp [hp, hnil]
    · simpa [hp] using ih h.2

theorem keys_not_mem_of_has_false {m : List (String × Entry)} {k : String}
    (h : mapHas m k = false) : k ∉ m.map Prod.fst := by
  intro hk
  obtain ⟨p, hp, hpk⟩ := List.mem_map.mp hk
  have : mapHas m k = true :=
    List.any_eq_true.mpr ⟨p, hp, by simp [hpk]⟩
  simp [this] at h

theorem sysInv_runTeardown (s : SystemState) (id : String) (e : Entry)
    (h : SysInv s) : SysInv (runTeardown s id e) := by
  obtain ⟨h1, h2, h3⟩ := h
  refine ⟨?_, ?_, ?_⟩
  · exact h1.sublist ((List.filter_sublist _).map Prod.fst)
  · intro p hp
    exact h2 p (List.mem_filter.mp hp).1
  · intro q hq
    exact h3 q (List.mem_filter.mp hq).1

theorem sysInv_cleanupOp (s : SystemState) (id : String)
    (h : SysInv s) : SysInv (cleanupOp s id) := by
  unfold cleanupOp
  cases hg : mapGet s.trackingMap id with
  | none => exact h
  | some e => exact sysInv_runTeardown s id e h

theorem sysInv_addEntry (s : SystemState) (id : String) (pop : ℕ)
    (h : SysInv s) : SysInv (addEntry s id pop) := by
  obtain ⟨h1, h2, h3⟩ := h
  refine ⟨?_, ?_, ?_⟩
  · show ((mapSet s.trackingMap id (Entry.mk s.nextToken pop)).map Prod.fst).Nodup
    unfold mapSet
    by_cases hh : mapHas s.trackingMap id
    · rw [if_pos hh, List.map_map]
      have hkeys :
          (Prod.fst ∘ fun p : String × Entry =>
            if p.1 == id then (id, Entry.mk s.nextToken pop) else p) = Prod.fst := by
        funext p
        by_cases hp : p.1 = id <;> simp [hp]
      rw [hkeys]
      exact h1
    · rw [if_neg hh, List.map_append]
      rw [List.nodup_append]
      refine ⟨h1, List.nodup_singleton _, ?_⟩
      intro a ha hb
      simp only [List.map_cons, List.map_nil, List.mem_singleton] at hb
      exact keys_not_mem_of_has_false (Bool.eq_false_iff.mpr hh) (hb ▸ ha)
  · intro p hp
    replace hp : p ∈ mapSet s.trackingMap id (Entry.mk s.nextToken pop) := hp
    show p.2.token < s.nextToken + 1
    unfold mapSet at hp
    by_cases hh : mapHas s.trackingMap id
    · rw [if_pos hh] at hp
      obtain ⟨q, hq, rfl⟩ := List.mem_map.mp hp
      by_cases hqk : q.1 = id
      · simp only [hqk, beq_self_eq_true, if_true]
        exact Nat.lt_succ_self _
      · simp only [beq_eq_false_iff_ne, ne_eq] at hqk ⊢
        rw [if_neg (by simpa using hqk)]
        exact Nat.lt_succ_of_lt (h2 q hq)
    · rw [if_neg hh] at hp
      rcases List.mem_append.mp hp with hq | hq
      · exact Nat.lt_succ_of_lt (h2 p hq)
      · simp only [List.mem_singleton] at hq
        subst hq
        exact Nat.lt_succ_self _
  · intro q hq
    replace hq : q ∈ s.active ++ newResources s.nextToken := hq
    show q.1 < s.nextToken + 1
    rcases List.mem_append.mp hq with hq' | hq'
    · exact Nat.lt_succ_of_lt (h3 q hq')
    · simp only [newResources, List.mem_cons, List.mem_singleton,
        List.not_mem_nil, or_false] at hq'
      rcases hq' with h | h | h | h | h <;>
        (subst h; exact Nat.lt_succ_self _)

theorem sysInv_pinOp (s : SystemState) (id : String) (pop : ℕ)
    (h : SysInv s) : SysInv (pinOp s id pop) := by
  unfold pinOp
  by_cases hh : mapHas s.trackingMap id
  · rw [if_pos hh]
    exact sysInv_addEntry _ id pop (sysInv_cleanupOp s id h)
  · rw [if_neg hh]
    exact sysInv_addEntry s id pop h

theorem sysInv_foldl_cleanup (l : List String) :
    ∀ s : SystemState, SysInv s → SysInv (l.foldl cleanupOp s) := by
  induction l with
  | nil => intro s h; exact h
  | cons a l ih =>
    intro s h
    exact ih (cleanupOp s a) (sysInv_cleanupOp s a h)

theorem sysInv_cleanupAllOp (s : SystemState) (h : SysInv s) :
    SysInv (cleanupAllOp s) :=
  sysInv_foldl_cleanup _ s h

theorem sysInv_removalCycleOp (s : SystemState) (id : String)
    (h : SysInv s) : SysInv (removalCycleOp s id) := by
  cases hg : mapGet s.trackingMap id with
  | none => simpa [removalCycleOp, hg] using h
  | some e =>
    by_cases hd : e.popover ∈ s.dom
    · simpa [removalCycleOp, hg, hd] using h
    · simpa [removalCycleOp, hg, hd] using sysInv_runTeardown s id e h

theorem sysInv_domRemoveOp (s : SystemState) (p : ℕ)
    (h : SysInv s) : SysInv (domRemoveOp s p) := h

theorem sysInv_domAddOp (s : SystemState) (p : ℕ)
    (h : SysInv s) : SysInv (domAddOp s p) := h

theorem sysInv_initSystem (dom : List ℕ) : SysInv (initSystem dom) := by
  refine ⟨List.nodup_nil, ?_, ?_⟩ <;> intro q hq <;> cases hq

theorem reachable_sysInv {s : SystemState} (h : Reachable s) : SysInv s := by
  induction h with
  | init dom => exact sysInv_initSystem dom
  | pin s id pop _ ih => exact sysInv_pinOp s id pop ih
  | unpin s id _ ih => exact sysInv_cleanupOp s id ih
  | unpinAll s _ ih => exact sysInv_cleanupAllOp s ih
  | removal s id _ ih => exact sysInv_removalCycleOp s id ih
  | domRemove s p _ ih => exact sysInv_domRemoveOp s p ih
  | domAdd s p _ ih => exact sysInv_domAddOp s p ih

/-! ## Claims C5, C6, C7 -/

/-- C5: in every reachable state each overlay identifier has at most
one tracking entry, and pinning an already-tracked identifier first
runs the previous entry's full teardown — its five resources
(listeners, observers and the poll timer) are no longer active
afterwards — before storing the new entry under the id. -/
theorem registry_unique_and_repin_teardown (s : SystemState) (hr : Reachable s) :
    (∀ id, keyCount s.trackingMap id ≤ 1) ∧
    ∀ id e popover, mapGet s.trackingMap id = some e →
      pinOp s id popover = addEntry (cleanupOp s id) id popover ∧
      (∀ r : Resource, (e.token, r) ∉ (pinOp s id popover).active) ∧
      mapGet (pinOp s id popover).trackingMap id = some (Entry.mk s.nextToken popover) := by
  obtain ⟨h1, h2, h3⟩ := reachable_sysInv hr
  refine ⟨fun id => keyCount_le_one_of_nodup h1, ?_⟩
  intro id e popover he
  have hhas := mapHas_of_mapGet_some he
  have htok : e.token < s.nextToken := by
    obtain ⟨pr, hpr, hk, hv⟩ := mapGet_mem he
    exact hv ▸ h2 pr hpr
  have hclean : cleanupOp s id = runTeardown s id e := by
    unfold cleanupOp
    rw [he]
  have hpin : pinOp s id popover = addEntry (cleanupOp s id) id popover := by
    unfold pinOp
    rw [if_pos hhas]
  refine ⟨hpin, ?_, ?_⟩
  · intro r hmem
    rw [hpin, hclean] at hmem
    replace hmem : (e.token, r) ∈
        (s.active.filter (fun q => q.1 != e.token)) ++ newResources s.nextToken := hmem
    rcases List.mem_append.mp hmem with hm | hm
    · have := (List.mem_filter.mp hm).2
      simp at this
    · simp only [newResources, List.mem_cons, List.mem_singleton,
        List.not_mem_nil, or_false] at hm
      rcases hm with h | h | h | h | h <;>
        (rw [Prod.mk.injEq] at h; exact absurd h.1 (Nat.ne_of_lt htok))
  · rw [hpin, hclean]
    show mapGet (mapSet (mapDelete s.trackingMap id) id
        (Entry.mk s.nextToken popover)) id = some (Entry.mk s.nextToken popover)
    unfold mapSet
    rw [if_neg (by simp [mapHas_mapDelete])]
    exact mapGet_mapDelete_append _ id _

/-- Witness for C5: pin "a" once, then re-pin it; the registry keeps a
single entry for "a", the first registration's resources are all
released, and the new entry carries the fresh token. -/
theorem registry_unique_and_repin_teardown_witness :
    keyCount (pinOp (initSystem [7]) "a" 7).trackingMap "a" ≤ 1 ∧
    (∀ r : Resource, ((0 : ℕ), r) ∉ (pinOp (pinOp (initSystem [7]) "a" 7) "a" 7).active) ∧
    mapGet (pinOp (pinOp (initSystem [7]) "a" 7) "a" 7).trackingMap "a" =
      some (Entry.mk 1 7) := by
  have h := registry_unique_and_repin_teardown (pinOp (initSystem [7]) "a" 7)
    (Reachable.pin _ "a" 7 (Reachable.init [7]))
  obtain ⟨hu, hp⟩ := h
  obtain ⟨-, hres, hnew⟩ := hp "a" (Entry.mk 0 7) 7 (by decide)
  exact ⟨hu "a", hres, hnew⟩

/-- C6: if the popover of a tracked entry is no longer in the DOM, one
removal-watcher cycle runs the entry's full teardown: afterwards the
id is untracked and the entry's camera listener, node listener, size
listener, removal watcher and poll timer are all released. -/
theorem removal_watcher_releases (s : SystemState) (id : String) (e : Entry)
    (he : mapGet s.trackingMap id = some e) (hd : e.popover ∉ s.dom) :
    hasTracking (removalCycleOp s id) id = false ∧
    ∀ r : Resource, (e.token, r) ∉ (removalCycleOp s id).active := by
  constructor
  · have h0 : hasTracking (runTeardown s id e) id = false := mapHas_mapDelete _ _
    simpa [removalCycleOp, he, hd] using h0
  · intro r hmem
    have hm2 : (e.token, r) ∈ (runTeardown s id e).active := by
      simpa [removalCycleOp, he, hd] using hmem
    replace hm2 : (e.token, r) ∈ s.active.filter (fun q => q.1 != e.token) := hm2
    have := (List.mem_filter.mp hm2).2
    simp at this

/-- Witness for C6: pin "a" to popover 7, remove 7 from the DOM; the
next watcher cycle untracks "a" and releases all five resources. -/
theorem removal_watcher_releases_witness :
    mapGet (domRemoveOp (pinOp (initSystem [7]) "a" 7) 7).trackingMap "a" =
      some (Entry.mk 0 7) ∧
    (Entry.mk 0 7).popover ∉ (domRemoveOp (pinOp (initSystem [7]) "a" 7) 7).dom ∧
    hasTracking (removalCycleOp (domRemoveOp (pinOp (initSystem [7]) "a" 7) 7) "a") "a" =
      false ∧
    ∀ r : Resource,
      ((0 : ℕ), r) ∉ (removalCycleOp (domRemoveOp (pinOp (initSystem [7]) "a" 7) 7) "a").active := by
  have h := removal_watcher_releases (domRemoveOp (pinOp (initSystem [7]) "a" 7) 7) "a"
    (Entry.mk 0 7) (by decide) (by decide)
  exact ⟨by decide, by decide, h.1, h.2⟩

/-- C7: `cleanup` with an untracked identifier is a no-op that leaves
the whole state (registry included) unchanged and raises no error
(it is a total function), and running `cleanup` twice in a row for the
same identifier equals running it once. -/
theorem unpin_untracked_noop (s : SystemState) (id : String) :
    (hasTracking s id = false → cleanupOp s id = s) ∧
    cleanupOp (cleanupOp s id) id = cleanupOp s id := by
  have hnone : ∀ t : SystemState, mapGet t.trackingMap id = none → cleanupOp t id = t := by
    intro t ht
    unfold cleanupOp
    rw [ht]
  constructor
  · intro h
    exact hnone s (mapGet_eq_none_of_has_false h)
  · cases hg : mapGet s.trackingMap id with
    | none =>
      rw [hnone s hg, hnone s hg]
    | some e =>
      have h1 : cleanupOp s id = runTeardown s id e := by
        unfold cleanupOp
        rw [hg]
      rw [h1]
      exact hnone _ (mapGet_eq_none_of_has_false (mapHas_mapDelete _ _))

/-- Witness for C7: on a fresh positioner, "a" is untracked and
`cleanup "a"` leaves the state unchanged. -/
theorem unpin_untracked_noop_witness :
    hasTracking (initSystem []) "a" = false ∧
    cleanupOp (initSystem []) "a" = initSystem [] :=
  ⟨rfl, (unpin_untracked_noop (initSystem []) "a").1 rfl⟩

end VoiceTree
